import Mathlib

/-!
Verification of the `mas-installer` installation pipeline (src/utils.rs).

The Rust source is shallowly embedded below.  Machine integers of the
source (`u128` bounds of the chunked downloader, the `u16` marker flag of
`is_valid_ddlc_dir`) are represented as `Nat`; the one place where a
`u128` operation can actually wrap (the `up_bound - 1` computed for the
`Range` header, which underflows when `up_bound = 0`) is modelled with an
explicit `% 2 ^ 128`.  Floating point progress fractions (`f64`) are
modelled as exact rationals.  Network responses, the shared abort flag
and directory listings are oracles supplied as parameters, so every
possible interleaving the Rust code can observe is an instance of the
model.
-/

/-- `2 ^ 128`, the modulus of the `u128` arithmetic used by the downloader. -/
def U128 : ℕ := 2 ^ 128

/-- The `u128` value of `up_bound - 1` as computed for the
`Range: bytes=low-(up-1)` header: wrapping subtraction of 1 (this is the
release-mode behaviour; a debug build would panic on the underflow). -/
def headerHigh (up : ℕ) : ℕ := (up + (U128 - 1)) % U128

/-- `DEF_CHUNK_SIZE` from `_download_to_file`: 8 MiB + 1. -/
def DEF_CHUNK_SIZE : ℕ := 1024 * 1024 * 8 + 1

/-- The mutable state of the download loop in `_download_to_file`:
`low_bound`, `up_bound` and `total_downloaded` (all `u128` in the source). -/
structure DlState where
  low : ℕ
  up : ℕ
  total : ℕ
  deriving Repr, DecidableEq

/-- Number of bytes requested by the ranged GET issued from state `s`:
the header asks for the inclusive range `low ..= up-1`, i.e. `up - low` bytes. -/
def requested (s : DlState) : ℕ := s.up - s.low

/-- One execution of the tail of the loop body of `_download_to_file`
(after the break check failed), given that the GET returned `r` bytes:
`total_downloaded += r` happened before the check, and then
`bound_inc = min r chunk_size; low_bound += bound_inc;
up_bound = min (up_bound + bound_inc) (content_size + 1)`. -/
def advance (c L : ℕ) (s : DlState) (r : ℕ) : DlState :=
  { low := s.low + min r c
    up := min (s.up + min r c) (L + 1)
    total := s.total + r }

/-- The state of the download loop at the beginning of iteration `k`
(its `k`-th "iteration boundary"), for chunk size `c = min DEF_CHUNK_SIZE L`
and an arbitrary oracle `recv` giving the bytes returned by the `k`-th GET.
`dlIter 0` is the state right after the initialisation
`low_bound = 0; up_bound = chunk_size; total_downloaded = 0`. -/
def dlIter (c L : ℕ) (recv : ℕ → ℕ) : ℕ → DlState
  | 0 => ⟨0, c, 0⟩
  | k + 1 => advance c L (dlIter c L recv k) (recv k)

/-- Sum of the first `n` values of the receive oracle
(= `total_downloaded` at the `n`-th iteration boundary). -/
def sumRecv (recv : ℕ → ℕ) : ℕ → ℕ
  | 0 => 0
  | n + 1 => sumRecv recv n + recv n

/-- How the download loop of `_download_to_file` ended. -/
inductive ExitKind
  | broke
  | aborted
  | errored (code : ℕ)
  | fuelOut
  deriving Repr, DecidableEq

/-- Observable outcome of running the download loop: exit kind, final
`DlState`, number of GETs issued, the `(low, up-1)` header pairs of those
GETs (`up-1` computed in `u128`), and the emitted progress fractions. -/
structure LoopOut where
  exit : ExitKind
  state : DlState
  gets : ℕ
  reqs : List (ℕ × ℕ)
  events : List ℚ
  deriving Repr

/-- The `loop` of `_download_to_file`, for content size `L`, chunk size `c`,
HTTP status oracle `status`, receive oracle `recv`, and abort-flag oracle
`abort` (`abort (k+1)` is the flag value read after iteration `k`).
`fuel` bounds the number of iterations modelled (the Rust loop can run
forever, e.g. against a server that keeps returning 0 bytes). -/
def runLoop (L c : ℕ) (status recv : ℕ → ℕ) (abort : ℕ → Bool) :
    ℕ → ℕ → DlState → LoopOut
  | 0, _, s => ⟨ExitKind.fuelOut, s, 0, [], []⟩
  | fuel + 1, k, s =>
    let req := (s.low, headerHigh s.up)
    if 200 ≤ status k ∧ status k < 300 then
      let r := recv k
      let t := s.total + r
      let evs : List ℚ := if L = 0 then [] else [(t : ℚ) / (L : ℚ)]
      if L ≤ t then
        ⟨ExitKind.broke, { s with total := t }, 1, [req], evs⟩
      else
        let s' := advance c L s r
        if abort (k + 1) then
          ⟨ExitKind.aborted, s', 1, [req], evs⟩
        else
          let rest := runLoop L c status recv abort fuel (k + 1) s'
          ⟨rest.exit, rest.state, rest.gets + 1, req :: rest.reqs, evs ++ rest.events⟩
    else
      ⟨ExitKind.errored (status k), s, 1, [req], []⟩

/-- Result of `_download_to_file` (`DownloadError` or success). -/
inductive DlResult
  | ok
  | invalidContentLen
  | invalidStatusCode (code : ℕ)
  | fuelOut
  deriving Repr, DecidableEq

/-- Observable outcome of a `_download_to_file` call: result, GETs issued
with their header ranges, every `UpdateProgressBar` fraction emitted
(including the initial `0.0`), bytes written to the destination file
(`copy_to` writes everything received), and whether the call returned
through an abort checkpoint. -/
structure DlRun where
  result : DlResult
  gets : ℕ
  reqs : List (ℕ × ℕ)
  events : List ℚ
  bytes : ℕ
  abortedRun : Bool
  deriving Repr

/-- `_download_to_file` from src/utils.rs, with the maximum chunk size as a
parameter (the source fixes it to `DEF_CHUNK_SIZE`; claims quantify over it).
`clen` is the `Content-Length` of the HEAD response if present and parsable
as `u128`, `abort 0` the abort flag read before the HEAD request. -/
def download_to_file_with (maxChunk : ℕ) (clen : Option ℕ)
    (status recv : ℕ → ℕ) (abort : ℕ → Bool) (fuel : ℕ) : DlRun :=
  if abort 0 then
    ⟨DlResult.ok, 0, [], [0], 0, true⟩
  else
    match clen with
    | none => ⟨DlResult.invalidContentLen, 0, [], [0], 0, false⟩
    | some L =>
      let c := min maxChunk L
      let out := runLoop L c status recv abort fuel 0 ⟨0, c, 0⟩
      { result :=
          match out.exit with
          | ExitKind.broke => DlResult.ok
          | ExitKind.aborted => DlResult.ok
          | ExitKind.errored code => DlResult.invalidStatusCode code
          | ExitKind.fuelOut => DlResult.fuelOut
        gets := out.gets
        reqs := out.reqs
        events := 0 :: out.events
        bytes := out.state.total
        abortedRun := out.exit = ExitKind.aborted }

/-- `_download_to_file` exactly as in the source (chunk size fixed to
`DEF_CHUNK_SIZE`). -/
def download_to_file (clen : Option ℕ) (status recv : ℕ → ℕ)
    (abort : ℕ → Bool) (fuel : ℕ) : DlRun :=
  download_to_file_with DEF_CHUNK_SIZE clen status recv abort fuel

/-- Boundary states of the loop when every GET returns exactly the
requested number of bytes (`fullState c L (k+1)` feeds the requested
count back into `advance`). -/
def fullState (c L : ℕ) : ℕ → DlState
  | 0 => ⟨0, c, 0⟩
  | k + 1 => advance c L (fullState c L k) (requested (fullState c L k))

/-- The receive oracle of a server that always returns exactly the
requested number of bytes. -/
def fullRecv (c L : ℕ) : ℕ → ℕ := fun k => requested (fullState c L k)

/-- Last element of a list of fractions, with a default for the empty
list (used to talk about "the final emitted progress value"). -/
def lastD (l : List ℚ) (d : ℚ) : ℚ :=
  match l with
  | [] => d
  | x :: xs => lastD xs x

/-- A component of an entry's stored path, as classified by
`std::path::Path::components`: `root` covers `Prefix`/`RootDir`
(absolute paths), `parent` is `..`, `cur` is `.`, `normal` anything else. -/
inductive FsComp
  | root
  | parent
  | cur
  | normal (s : String)
  deriving Repr, DecidableEq

/-- One entry of the zip archive: its raw stored name (carried in
`ExtractionError::UnsafeFilepath`), the components of the stored path,
whether it denotes a directory, and the number of decompressed bytes the
entry writes when it is a file. -/
structure ZipEntry where
  rawName : String
  comps : List FsComp
  isDir : Bool
  size : ℕ
  deriving Repr, DecidableEq

/-- Models `ZipFile::enclosed_name` of the zip crate (an external
dependency called by `_extract_archive`; its code is not part of this
repository): the stored path is accepted iff it has no prefix/root
component and its `..` components never take the running depth below
zero, so the path cannot escape the extraction root.  The spec describes
this check as rejecting stored paths that "would escape the destination
directory (no leading `..`, no absolute paths)". -/
def depthCheck : List FsComp → ℕ → Bool
  | [], _ => true
  | FsComp.root :: _, _ => false
  | FsComp.parent :: rest, d =>
    match d with
    | 0 => false
    | d + 1 => depthCheck rest d
  | FsComp.cur :: rest, d => depthCheck rest d
  | FsComp.normal _ :: rest, d => depthCheck rest (d + 1)

/-- `enclosed_name(...).is_some()` for a stored path. -/
def isEnclosed (l : List FsComp) : Bool := depthCheck l 0

/-- `ExtractionError` (src/errors.rs) as used by `_extract_archive`. -/
inductive ExtractionError
  | corruptArchive
  | unsafeFilepath (name : String)
  deriving Repr, DecidableEq

/-- Observable outcome of `_extract_archive`: result (`none` is success),
emitted progress fractions, total file bytes written below the
destination, and whether the call returned through an abort checkpoint. -/
structure ExOut where
  result : Option ExtractionError
  events : List ℚ
  bytes : ℕ
  abortedRun : Bool
  deriving Repr, DecidableEq

/-- The `for i in 0..total_files` loop of `_extract_archive`, processing
entries from index `i` on: each entry is checked by `enclosed_name`
(failure returns `UnsafeFilepath(name)` at once), then extracted
(directories write no file bytes, files write `size` bytes), then
progress `(i+1)/total` is emitted, then the abort flag is checked.
Filesystem operations are modelled as succeeding. -/
def extractLoop (abortAfter : ℕ → Bool) (total : ℕ) : ℕ → List ZipEntry → ExOut
  | _, [] => ⟨none, [], 0, false⟩
  | i, e :: rest =>
    if isEnclosed e.comps then
      let sz := if e.isDir then 0 else e.size
      let ev : ℚ := ((i : ℚ) + 1) / (total : ℚ)
      if abortAfter i then
        ⟨none, [ev], sz, true⟩
      else
        let r := extractLoop abortAfter total (i + 1) rest
        ⟨r.result, ev :: r.events, sz + r.bytes, r.abortedRun⟩
    else
      ⟨some (ExtractionError.unsafeFilepath e.rawName), [], 0, false⟩

/-- `_extract_archive` from src/utils.rs: emit progress `0.0`, check the
abort flag, open the archive (`none` models a corrupt container index),
then run the entry loop.  `abortPre` is the abort flag read before the
archive is opened, `abortAfter i` the flag read after entry `i`. -/
def extract_archive (abortPre : Bool) (abortAfter : ℕ → Bool)
    (archive : Option (List ZipEntry)) : ExOut :=
  if abortPre then
    ⟨none, [0], 0, true⟩
  else
    match archive with
    | none => ⟨some ExtractionError.corruptArchive, [0], 0, false⟩
    | some entries =>
      let r := extractLoop abortAfter entries.length 0 entries
      ⟨r.result, 0 :: r.events, r.bytes, r.abortedRun⟩

/-- Total decompressed bytes of the file entries of a list (what
extracting exactly those entries writes to disk). -/
def fileBytes : List ZipEntry → ℕ
  | [] => 0
  | e :: l => (if e.isDir then 0 else e.size) + fileBytes l

/-- The unsafety predicate exactly as worded by claim C1: the stored
path "is absolute or contains a parent-directory segment". -/
def entryClaimUnsafe (e : ZipEntry) : Bool :=
  e.comps.any (fun x => (x == FsComp.root) || (x == FsComp.parent))

/-- Claim C1 as stated, at a given archive (run without abort): if some
entry is absolute or contains a parent segment, extraction fails with
`UnsafeFilepath` carrying such an entry's name and writes zero bytes to
disk. -/
def c1ZeroBytesClaim (entries : List ZipEntry) : Prop :=
  entries.any entryClaimUnsafe = true →
    ∃ e ∈ entries, entryClaimUnsafe e = true ∧
      (extract_archive false (fun _ => false) (some entries)).result
        = some (ExtractionError.unsafeFilepath e.rawName) ∧
      (extract_archive false (fun _ => false) (some entries)).bytes = 0

/-- Concrete archive refuting C1: a safe 3-byte file, then a 2-byte file
whose stored path contains an interior `..` that stays inside the
destination, then an escaping entry `../evil`. -/
def c1Archive : List ZipEntry :=
  [ ⟨"a.txt", [FsComp.normal "a.txt"], false, 3⟩,
    ⟨"b/../c.txt", [FsComp.normal "b", FsComp.parent, FsComp.normal "c.txt"], false, 2⟩,
    ⟨"../evil", [FsComp.parent, FsComp.normal "evil"], false, 1⟩ ]

/-- One result of the `read_dir` iterator in `is_valid_ddlc_dir`: an
entry read error, or an entry with its file name (`none` when the name
is not valid UTF-8) and whether `item.path().is_dir()`. -/
inductive DirItem
  | errItem
  | okItem (name : Option String) (isDir : Bool)
  deriving Repr, DecidableEq

/-- `REQUIRED_FLAG = 2 << TOTAL_CONDITIONS` with `TOTAL_CONDITIONS = 5`. -/
def REQUIRED_FLAG : ℕ := 2 <<< 5

/-- Does this entry match one of the five DDLC markers (the `match` arms
of `is_valid_ddlc_dir`)? -/
def markerMatch (name : String) (isDir : Bool) : Bool :=
  if isDir then
    name == "characters" || name == "game" || name == "renpy"
  else
    name == "DDLC.py" || name == "DDLC.sh"

/-- The `for item in content` loop of `is_valid_ddlc_dir`, carrying the
doubling `flag` (a `u16` in the source; it never exceeds 64 because the
loop returns as soon as it reaches `REQUIRED_FLAG`, so the `u16` cannot
wrap and `Nat` arithmetic is faithful). -/
def ddlcLoop : List DirItem → ℕ → Bool
  | [], flag => flag == REQUIRED_FLAG
  | item :: rest, flag =>
    match item with
    | DirItem.errItem => true
    | DirItem.okItem none _ => ddlcLoop rest flag
    | DirItem.okItem (some name) isDir =>
      let flag2 := if markerMatch name isDir then flag * 2 else flag
      if flag2 == REQUIRED_FLAG then true else ddlcLoop rest flag2

/-- `is_valid_ddlc_dir` from src/utils.rs.  `pathExists` and `pathIsDir`
model `path.exists()` and `path.is_dir()`; `content` is the `read_dir`
listing (`none` when `read_dir` itself fails). -/
def is_valid_ddlc_dir (pathExists pathIsDir : Bool)
    (content : Option (List DirItem)) : Bool :=
  if !pathExists || !pathIsDir then false
  else
    match content with
    | none => true
    | some items => ddlcLoop items 2

/-- `true` iff some entry of the listing failed to read. -/
def hasErr : List DirItem → Bool
  | [] => false
  | DirItem.errItem :: _ => true
  | _ :: rest => hasErr rest

/-- Number of entries matching one of the five markers. -/
def matchCount : List DirItem → ℕ
  | [] => 0
  | item :: rest =>
    (match item with
     | DirItem.okItem (some n) d => if markerMatch n d then 1 else 0
     | _ => 0) + matchCount rest

/-- Names of the UTF-8-decodable entries of a listing (pairwise distinct
on a real filesystem, since a directory cannot hold two equally named
entries). -/
def okNames : List DirItem → List String
  | [] => []
  | DirItem.okItem (some n) _ :: rest => n :: okNames rest
  | _ :: rest => okNames rest

/-- Names of the marker-matching entries of a listing. -/
def matchNames : List DirItem → List String
  | [] => []
  | DirItem.okItem (some n) d :: rest =>
    if markerMatch n d then n :: matchNames rest else matchNames rest
  | _ :: rest => matchNames rest

/-- All five DDLC markers are present: subdirectories `characters`,
`game`, `renpy` and non-directory entries `DDLC.py`, `DDLC.sh`. -/
def allFive (items : List DirItem) : Prop :=
  DirItem.okItem (some "characters") true ∈ items ∧
  DirItem.okItem (some "game") true ∈ items ∧
  DirItem.okItem (some "renpy") true ∈ items ∧
  DirItem.okItem (some "DDLC.py") false ∈ items ∧
  DirItem.okItem (some "DDLC.sh") false ∈ items

/-- `Message` variants used by the installation pipeline in src/utils.rs
(progress fractions as rationals). -/
inductive Message
  | Preparing
  | Downloading
  | Extracting
  | DownloadingSpr
  | ExtractingSpr
  | CleaningUp
  | Done
  | Error
  | UpdateProgressBar (v : ℚ)
  deriving Repr, DecidableEq

/-- `InstallerError` as observed through `install_game`: which stage
failed. -/
inductive InstallErr
  | clientBuild
  | releaseData
  | tempFs
  | dl (e : DlResult)
  | unzip (e : ExtractionError)
  deriving Repr, DecidableEq

/-- Network/abort environment of one `_download_to_file` call. -/
structure DlEnv where
  clen : Option ℕ
  status : ℕ → ℕ
  recv : ℕ → ℕ
  abort : ℕ → Bool

/-- Environment of one `_extract_archive` call. -/
structure ExEnv where
  abortPre : Bool
  abortAfter : ℕ → Bool
  archive : Option (List ZipEntry)

/-- Run `_download_to_file` in its environment. -/
def runDl (env : DlEnv) (fuel : ℕ) : DlRun :=
  download_to_file env.clen env.status env.recv env.abort fuel

/-- Run `_extract_archive` in its environment. -/
def runEx (env : ExEnv) : ExOut :=
  extract_archive env.abortPre env.abortAfter env.archive

/-- Environment of one `install_game` run: outcomes of the fallible
non-network steps (`build_client`, `get_release_data`, temp dir/file
creation), the four stage environments, the values observed by the five
abort-flag reads `install_game` performs itself, and the
`install_spr` flag.  The deluxe flag only selects which URL is fetched
and has no further observable effect, so it is omitted. -/
structure InstallEnv where
  abortStart : Bool
  abortAfterDl1 : Bool
  abortAfterEx1 : Bool
  abortAfterDl2 : Bool
  abortAfterEx2 : Bool
  clientOk : Bool
  releaseOk : Bool
  tempOk : Bool
  installSpr : Bool
  dl1 : DlEnv
  ex1 : ExEnv
  dl2 : DlEnv
  ex2 : ExEnv

/-- Observable outcome of `install_game`: result (`none` is `Ok(())`),
whether it returned through one of its own abort checkpoints, and the
emitted messages in order. -/
structure InstallOut where
  result : Option InstallErr
  abortedRun : Bool
  events : List Message

/-- The message sequence of `cleanup` from src/utils.rs: `CleaningUp`,
progress `0.0`, progress `1.0`, `Done`. -/
def cleanupEvents : List Message :=
  [Message.CleaningUp, Message.UpdateProgressBar 0,
   Message.UpdateProgressBar 1, Message.Done]

/-- The spritepack (secondary artifact) tail of `install_game`:
`DownloadingSpr` + download, abort check, `ExtractingSpr` + extraction,
abort check, `cleanup`.  `ev` is the event trace accumulated so far. -/
def install_spritepacks (env : InstallEnv) (fuel : ℕ) (ev : List Message) : InstallOut :=
  let d2 := runDl env.dl2 fuel
  let ev5 := ev ++ [Message.DownloadingSpr] ++ d2.events.map Message.UpdateProgressBar
  match d2.result with
  | DlResult.ok =>
    if env.abortAfterDl2 then ⟨none, true, ev5⟩
    else
      let x2 := runEx env.ex2
      let ev6 := ev5 ++ [Message.ExtractingSpr] ++ x2.events.map Message.UpdateProgressBar
      match x2.result with
      | some e => ⟨some (InstallErr.unzip e), false, ev6⟩
      | none =>
        if env.abortAfterEx2 then ⟨none, true, ev6⟩
        else ⟨none, false, ev6 ++ cleanupEvents⟩
  | e => ⟨some (InstallErr.dl e), false, ev5⟩

/-- The primary-artifact part of `install_game` (the code after
`Message::Downloading` is sent): download, abort check, `Extracting` +
extraction, abort check, then `cleanup` when spritepacks are not wanted
or the spritepack tail otherwise.  Stage errors propagate at once. -/
def install_primary (env : InstallEnv) (fuel : ℕ) (ev : List Message) : InstallOut :=
  let d1 := runDl env.dl1 fuel
  let ev3 := ev ++ d1.events.map Message.UpdateProgressBar
  match d1.result with
  | DlResult.ok =>
    if env.abortAfterDl1 then ⟨none, true, ev3⟩
    else
      let x1 := runEx env.ex1
      let ev4 := ev3 ++ [Message.Extracting] ++ x1.events.map Message.UpdateProgressBar
      match x1.result with
      | some e => ⟨some (InstallErr.unzip e), false, ev4⟩
      | none =>
        if env.abortAfterEx1 then ⟨none, true, ev4⟩
        else if env.installSpr = false then ⟨none, false, ev4 ++ cleanupEvents⟩
        else install_spritepacks env fuel ev4
  | e => ⟨some (InstallErr.dl e), false, ev3⟩

/-- `install_game` from src/utils.rs: `Preparing`, progress `0.0`, abort
check, client build, release data, progress `0.5`, temp structures,
progress `1.0`, `Downloading`, then the primary stage (which itself
continues into the optional spritepack stage and `cleanup`). -/
def install_game (env : InstallEnv) (fuel : ℕ) : InstallOut :=
  let ev0 := [Message.Preparing, Message.UpdateProgressBar 0]
  if env.abortStart then ⟨none, true, ev0⟩
  else if env.clientOk = false then ⟨some InstallErr.clientBuild, false, ev0⟩
  else if env.releaseOk = false then ⟨some InstallErr.releaseData, false, ev0⟩
  else
    let ev1 := ev0 ++ [Message.UpdateProgressBar (1 / 2)]
    if env.tempOk = false then ⟨some InstallErr.tempFs, false, ev1⟩
    else
      install_primary env fuel (ev1 ++ [Message.UpdateProgressBar 1, Message.Downloading])

/-- `install_game_in_thread`: the full message sequence seen by the UI;
`Message::Error` is appended iff `install_game` returned an error. -/
def install_game_in_thread (env : InstallEnv) (fuel : ℕ) : List Message :=
  let out := install_game env fuel
  match out.result with
  | some _ => out.events ++ [Message.Error]
  | none => out.events

/-- The coverage part of claim C2 as stated: every interval requested by
the full-receipt run with maximum chunk size `C` lies inside `[0, L)`
(necessary for the intervals to partition `[0, L)`). -/
def c2CoverageClaim (C L : ℕ) : Prop :=
  ∀ k < (L + C - 1) / C, (fullState (min C L) L k).up ≤ L

/-- The claim-C6 property of one download run: emitted progress values
are non-decreasing and the final one equals 1 exactly when the bytes
written reached the content length. -/
def progressFinalClaim (r : DlRun) (L : ℕ) : Prop :=
  r.events.Chain' (fun a b => a ≤ b) ∧ (lastD r.events 0 = 1 ↔ r.bytes = L)

/-- A one-byte download that succeeds immediately (witness environment). -/
def dlEnvOk : DlEnv :=
  ⟨some 1, fun _ => 200, fun _ => 1, fun _ => false⟩

/-- Extraction of an empty archive (witness environment). -/
def exEnvOk : ExEnv := ⟨false, fun _ => false, some []⟩

/-- A full successful run with `install_spr` off (witness environment
for C9). -/
def installEnvNoSpr : InstallEnv :=
  ⟨false, false, false, false, false, true, true, true, false,
   dlEnvOk, exEnvOk, dlEnvOk, exEnvOk⟩

/-- A run whose abort flag is set before anything starts (witness
environment for C7). -/
def installEnvAborted : InstallEnv :=
  ⟨true, false, false, false, false, true, true, true, false,
   dlEnvOk, exEnvOk, dlEnvOk, exEnvOk⟩

/- ===== DEFINITIONS ABOVE THIS LINE, THEOREMS BELOW ===== -/

theorem dlIter_fullRecv (c L : ℕ) (k : ℕ) :
    dlIter c L (fullRecv c L) k = fullState c L k := by
  induction k with
  | zero => rfl
  | succ k ih => simp [dlIter, fullState, fullRecv, ih]

theorem dlIter_total (c L : ℕ) (recv : ℕ → ℕ) (k : ℕ) :
    (dlIter c L recv k).total = sumRecv recv k := by
  induction k with
  | zero => rfl
  | succ k ih => simp [dlIter, advance, sumRecv, ih]

/-- The window never exceeds the chunk size: `up ≤ low + c` at every
iteration boundary (initially `up - low = c`, and `advance` can only
shrink the window). -/
theorem dlIter_up_le_low_add (c L : ℕ) (recv : ℕ → ℕ) (k : ℕ) :
    (dlIter c L recv k).up ≤ (dlIter c L recv k).low + c := by
  induction k with
  | zero => simp [dlIter]
  | succ k ih =>
    simp only [dlIter, advance]
    calc min ((dlIter c L recv k).up + min (recv k) c) (L + 1)
        ≤ (dlIter c L recv k).up + min (recv k) c := min_le_left _ _
      _ ≤ (dlIter c L recv k).low + c + min (recv k) c := by omega
      _ = (dlIter c L recv k).low + min (recv k) c + c := by omega

/-- Main boundary invariant of the download loop, for chunk size
`min C L`: at every reached boundary (all previous break checks failed),
`low ≤ total`, `low ≤ up` and `up ≤ L + 1`. -/
theorem dlIter_inv (C L : ℕ) (recv : ℕ → ℕ) (k : ℕ)
    (hreach : ∀ j < k, sumRecv recv (j + 1) < L) :
    (dlIter (min C L) L recv k).low ≤ (dlIter (min C L) L recv k).total ∧
    (dlIter (min C L) L recv k).low ≤ (dlIter (min C L) L recv k).up ∧
    (dlIter (min C L) L recv k).up ≤ L + 1 := by
  induction k with
  | zero =>
    refine ⟨le_refl _, ?_, ?_⟩
    · simp [dlIter]
    · simp only [dlIter]
      omega
  | succ k ih =>
    obtain ⟨h1, h2, h3⟩ := ih (fun j hj => hreach j (Nat.lt_succ_of_lt hj))
    have htot : sumRecv recv (k + 1) < L := hreach k (Nat.lt_succ_self k)
    have htotk : (dlIter (min C L) L recv k).total = sumRecv recv k :=
      dlIter_total _ _ _ _
    simp only [dlIter, advance]
    refine ⟨by omega, ?_, ?_⟩
    · have hinc : min (recv k) (min C L) ≤ recv k := min_le_left _ _
      have hlow : (dlIter (min C L) L recv k).low + min (recv k) (min C L)
          ≤ sumRecv recv (k + 1) := by
        simp only [sumRecv]; omega
      exact le_min (by omega) (by omega)
    · exact min_le_right _ _

/-- Once the loop body runs, the loop can only `break` with
`total_downloaded ≥ content_size`: whichever way `runLoop` exits with
`ExitKind.broke`, the final total has reached `L`. -/
theorem runLoop_broke_total (L c : ℕ) (status recv : ℕ → ℕ) (abort : ℕ → Bool) :
    ∀ (fuel k : ℕ) (s : DlState),
      (runLoop L c status recv abort fuel k s).exit = ExitKind.broke →
      L ≤ (runLoop L c status recv abort fuel k s).state.total := by
  intro fuel
  induction fuel with
  | zero => intro k s h; simp [runLoop] at h
  | succ fuel ih =>
    intro k s
    simp only [runLoop]
    split
    · split
      · intro _; simpa using ‹L ≤ s.total + recv k›
      · split
        · intro h; simp at h
        · intro h
          simp only at h ⊢
          exact ih (k + 1) _ h
    · intro h; simp at h

theorem runLoop_succ_break (L c : ℕ) (status recv : ℕ → ℕ) (abort : ℕ → Bool)
    (fuel k : ℕ) (s : DlState)
    (hst : 200 ≤ status k ∧ status k < 300) (hbr : L ≤ s.total + recv k) :
    runLoop L c status recv abort (fuel + 1) k s =
      ⟨ExitKind.broke, { s with total := s.total + recv k }, 1,
        [(s.low, headerHigh s.up)],
        if L = 0 then [] else [((s.total + recv k : ℕ) : ℚ) / (L : ℚ)]⟩ := by
  simp only [runLoop, if_pos hst, if_pos hbr]

theorem runLoop_succ_err (L c : ℕ) (status recv : ℕ → ℕ) (abort : ℕ → Bool)
    (fuel k : ℕ) (s : DlState)
    (hst : ¬(200 ≤ status k ∧ status k < 300)) :
    runLoop L c status recv abort (fuel + 1) k s =
      ⟨ExitKind.errored (status k), s, 1, [(s.low, headerHigh s.up)], []⟩ := by
  simp only [runLoop, if_neg hst]

theorem runLoop_succ_abort (L c : ℕ) (status recv : ℕ → ℕ) (abort : ℕ → Bool)
    (fuel k : ℕ) (s : DlState)
    (hst : 200 ≤ status k ∧ status k < 300) (hbr : ¬ L ≤ s.total + recv k)
    (hab : abort (k + 1) = true) :
    runLoop L c status recv abort (fuel + 1) k s =
      ⟨ExitKind.aborted, advance c L s (recv k), 1,
        [(s.low, headerHigh s.up)],
        if L = 0 then [] else [((s.total + recv k : ℕ) : ℚ) / (L : ℚ)]⟩ := by
  simp only [runLoop, if_pos hst, if_neg hbr, hab, if_true]

theorem runLoop_succ_cont (L c : ℕ) (status recv : ℕ → ℕ) (abort : ℕ → Bool)
    (fuel k : ℕ) (s : DlState)
    (hst : 200 ≤ status k ∧ status k < 300) (hbr : ¬ L ≤ s.total + recv k)
    (hab : abort (k + 1) = false) :
    runLoop L c status recv abort (fuel + 1) k s =
      ⟨(runLoop L c status recv abort fuel (k + 1) (advance c L s (recv k))).exit,
       (runLoop L c status recv abort fuel (k + 1) (advance c L s (recv k))).state,
       (runLoop L c status recv abort fuel (k + 1) (advance c L s (recv k))).gets + 1,
       (s.low, headerHigh s.up) ::
         (runLoop L c status recv abort fuel (k + 1) (advance c L s (recv k))).reqs,
       (if L = 0 then [] else [((s.total + recv k : ℕ) : ℚ) / (L : ℚ)]) ++
         (runLoop L c status recv abort fuel (k + 1) (advance c L s (recv k))).events⟩ := by
  simp only [runLoop, if_pos hst, if_neg hbr, hab, Bool.false_eq_true, if_false]

/-- `j < ⌈L/c⌉` iff the `j`-th chunk still starts strictly inside the
content interval: `j * c < L` (for positive `c` and `L`). -/
theorem lt_ceilDiv_iff (c L j : ℕ) (hc : 0 < c) (hL : 0 < L) :
    j < (L + c - 1) / c ↔ j * c < L := by
  rw [Nat.lt_iff_add_one_le, Nat.le_div_iff_mul_le hc]
  have h1 : (j + 1) * c = j * c + c := by ring
  rw [h1]
  generalize j * c = m
  omega

/-- `⌈L/c⌉ * c ≥ L`. -/
theorem ceilDiv_mul_ge (c L : ℕ) (hc : 0 < c) (hL : 0 < L) :
    L ≤ ((L + c - 1) / c) * c := by
  by_contra h
  push_neg at h
  have := (lt_ceilDiv_iff c L ((L + c - 1) / c) hc hL).mpr h
  omega

/-- Closed form of the boundary states under full receipt: at every
boundary `k` before the break, `low = total = k*c` and
`up = min ((k+1)*c) (L+1)`, i.e. the `k`-th GET requests the interval
`[k*c, min ((k+1)*c) (L+1))`. -/
theorem fullState_closed (c L : ℕ) (hc : 0 < c) (hcL : c ≤ L) :
    ∀ k, k < (L + c - 1) / c →
      fullState c L k = ⟨k * c, min ((k + 1) * c) (L + 1), k * c⟩ := by
  have hL : 0 < L := lt_of_lt_of_le hc hcL
  intro k
  induction k with
  | zero =>
    intro _
    simp [fullState]
    omega
  | succ k ih =>
    intro hk1
    have hk : k < (L + c - 1) / c := Nat.lt_of_succ_lt hk1
    have hkc : (k + 1) * c < L := (lt_ceilDiv_iff c L (k + 1) hc hL).mp hk1
    have hs := ih hk
    have h1 : (k + 1) * c = k * c + c := by ring
    have h2 : (k + 1 + 1) * c = k * c + c + c := by ring
    have hkc' : k * c + c < L := by rw [h1] at hkc; exact hkc
    have hmin : min (k * c + c) (L + 1) = k * c + c :=
      min_eq_left (le_of_lt (Nat.lt_succ_of_lt hkc'))
    rw [fullState, hs]
    simp [advance, requested, h1, h2, hmin, Nat.add_sub_cancel_left]

example : (download_to_file_with 2 (some 3) (fun _ => 200) (fun _ => 2)
    (fun _ => false) 5).bytes = 4 := by decide

example : (download_to_file_with 2 (some 3) (fun _ => 200) (fun _ => 2)
    (fun _ => false) 5).gets = 2 := by decide

/-- Under full receipt with all-success statuses and no abort, a loop
started at boundary `k` (state `fullState c L k`) with `m + 1` chunks left
(`k + (m + 1) = ⌈L/c⌉`) issues exactly `m + 1` more GETs and exits by
`break`. -/
theorem runLoop_full_aux (c L : ℕ) (hc : 0 < c) (hcL : c ≤ L) :
    ∀ (m k fuel : ℕ), k + (m + 1) = (L + c - 1) / c → m + 1 ≤ fuel →
      (runLoop L c (fun _ => 200) (fullRecv c L) (fun _ => false) fuel k
        (fullState c L k)).exit = ExitKind.broke ∧
      (runLoop L c (fun _ => 200) (fullRecv c L) (fun _ => false) fuel k
        (fullState c L k)).gets = m + 1 := by
  have hL : 0 < L := lt_of_lt_of_le hc hcL
  intro m
  induction m with
  | zero =>
    intro k fuel hk hfuel
    obtain ⟨f, rfl⟩ : ∃ f, fuel = f + 1 := ⟨fuel - 1, by omega⟩
    have hkn : k < (L + c - 1) / c := by omega
    have hs := fullState_closed c L hc hcL k hkn
    have hnc : L ≤ ((L + c - 1) / c) * c := ceilDiv_mul_ge c L hc hL
    have hkcL : k * c < L := (lt_ceilDiv_iff c L k hc hL).mp hkn
    have hLk1 : L ≤ (k + 1) * c := by
      rw [show k + 1 = (L + c - 1) / c by omega]
      exact hnc
    have h1 : (fullState c L k).total = k * c := by rw [hs]
    have h2 : fullRecv c L k = min ((k + 1) * c) (L + 1) - k * c := by
      simp only [fullRecv, requested]
      rw [hs]
    have ht : L ≤ (fullState c L k).total + fullRecv c L k := by
      rw [h1, h2]
      omega
    rw [runLoop_succ_break _ _ _ _ _ _ _ _ ⟨le_refl _, by norm_num⟩ ht]
    exact ⟨rfl, rfl⟩
  | succ m ih =>
    intro k fuel hk hfuel
    obtain ⟨f, rfl⟩ : ∃ f, fuel = f + 1 := ⟨fuel - 1, by omega⟩
    have hkn : k < (L + c - 1) / c := by omega
    have hk1n : k + 1 < (L + c - 1) / c := by omega
    have hs := fullState_closed c L hc hcL k hkn
    have hk1c : (k + 1) * c < L := (lt_ceilDiv_iff c L (k + 1) hc hL).mp hk1n
    have hkk1 : k * c ≤ (k + 1) * c := Nat.mul_le_mul_right c (Nat.le_succ k)
    have h1 : (fullState c L k).total = k * c := by rw [hs]
    have h2 : fullRecv c L k = min ((k + 1) * c) (L + 1) - k * c := by
      simp only [fullRecv, requested]
      rw [hs]
    have hbr : ¬ L ≤ (fullState c L k).total + fullRecv c L k := by
      rw [h1, h2]
      omega
    rw [runLoop_succ_cont _ _ _ _ _ _ _ _ ⟨le_refl _, by norm_num⟩ hbr rfl]
    have hadv : advance c L (fullState c L k) (fullRecv c L k)
        = fullState c L (k + 1) := rfl
    rw [hadv]
    have hih := ih (k + 1) f (by omega) (by omega)
    exact ⟨by simp [hih.1], by simp [hih.2]⟩

/-- Under full receipt the whole loop run performs exactly `⌈L/c⌉` GETs
and exits via `break`. -/
theorem runLoop_full (c L fuel : ℕ) (hc : 0 < c) (hcL : c ≤ L)
    (hfuel : (L + c - 1) / c ≤ fuel) :
    (runLoop L c (fun _ => 200) (fullRecv c L) (fun _ => false) fuel 0
      ⟨0, c, 0⟩).exit = ExitKind.broke ∧
    (runLoop L c (fun _ => 200) (fullRecv c L) (fun _ => false) fuel 0
      ⟨0, c, 0⟩).gets = (L + c - 1) / c := by
  have hL : 0 < L := lt_of_lt_of_le hc hcL
  have hn : 0 < (L + c - 1) / c := (lt_ceilDiv_iff c L 0 hc hL).mpr (by simpa using hL)
  obtain ⟨m, hm⟩ : ∃ m, (L + c - 1) / c = m + 1 := ⟨(L + c - 1) / c - 1, by omega⟩
  have haux := runLoop_full_aux c L hc hcL m 0 fuel (by omega) (by omega)
  rw [show fullState c L 0 = ⟨0, c, 0⟩ from rfl] at haux
  exact ⟨haux.1, by rw [haux.2]; omega⟩

/-- The upper bound of the final requested interval under full receipt:
exactly `L` when `c` divides `L`, and `L + 1` (one byte past the end of
the content) otherwise. -/
theorem fullState_last_up (c L : ℕ) (hc : 0 < c) (hcL : c ≤ L) :
    (fullState c L ((L + c - 1) / c - 1)).up = if c ∣ L then L else L + 1 := by
  have hL : 0 < L := lt_of_lt_of_le hc hcL
  have hn : 0 < (L + c - 1) / c := (lt_ceilDiv_iff c L 0 hc hL).mpr (by simpa using hL)
  have hlt : (L + c - 1) / c - 1 < (L + c - 1) / c := by omega
  have hs := fullState_closed c L hc hcL _ hlt
  have hup : (fullState c L ((L + c - 1) / c - 1)).up
      = min (((L + c - 1) / c - 1 + 1) * c) (L + 1) := by rw [hs]
  rw [hup, show ((L + c - 1) / c - 1 + 1) = (L + c - 1) / c from by omega]
  have hnc : L ≤ ((L + c - 1) / c) * c := ceilDiv_mul_ge c L hc hL
  by_cases hdvd : c ∣ L
  · rw [if_pos hdvd]
    have hmul : ((L + c - 1) / c) * c = L := by
      obtain ⟨q, hq⟩ := hdvd
      subst hq
      have hnq : (c * q + c - 1) / c = q := by
        have he : c * q + c - 1 = c * q + (c - 1) := by omega
        rw [he, Nat.mul_add_div hc, Nat.div_eq_of_lt (by omega)]
        omega
      rw [hnq]; ring
    rw [hmul]
    omega
  · rw [if_neg hdvd]
    have hne : ((L + c - 1) / c) * c ≠ L := by
      intro h
      refine hdvd ⟨(L + c - 1) / c, ?_⟩
      rw [Nat.mul_comm]
      exact h.symm
    omega

theorem div_cast_le_div_cast (L a b : ℕ) (h : a ≤ b) :
    (a : ℚ) / (L : ℚ) ≤ (b : ℚ) / (L : ℚ) :=
  div_le_div_of_nonneg_right (by exact_mod_cast h) (by positivity)

/-- Progress events emitted by the download loop: prepending the entry
fraction `s.total / L`, the event list is non-decreasing, and its last
element is the final `total_downloaded / L` (for `L > 0`). -/
theorem runLoop_events_chain (L c : ℕ) (status recv : ℕ → ℕ) (abort : ℕ → Bool)
    (hL : 0 < L) :
    ∀ (fuel k : ℕ) (s : DlState),
      (((s.total : ℚ) / (L : ℚ)) ::
        (runLoop L c status recv abort fuel k s).events).Chain' (fun a b => a ≤ b) ∧
      ∀ d : ℚ, lastD (((s.total : ℚ) / (L : ℚ)) ::
          (runLoop L c status recv abort fuel k s).events) d
        = ((runLoop L c status recv abort fuel k s).state.total : ℚ) / (L : ℚ) := by
  have hL0 : L ≠ 0 := Nat.pos_iff_ne_zero.mp hL
  intro fuel
  induction fuel with
  | zero =>
    intro k s
    constructor
    · simp [runLoop]
    · intro d
      simp [runLoop, lastD]
  | succ fuel ih =>
    intro k s
    by_cases hst : 200 ≤ status k ∧ status k < 300
    · by_cases hbr : L ≤ s.total + recv k
      · rw [runLoop_succ_break L c status recv abort fuel k s hst hbr]
        simp only [if_neg hL0]
        refine ⟨List.chain'_cons.mpr ⟨?_, List.chain'_singleton _⟩, ?_⟩
        · exact div_cast_le_div_cast L _ _ (Nat.le_add_right _ _)
        · intro d
          simp [lastD]
      · by_cases hab : abort (k + 1) = true
        · rw [runLoop_succ_abort L c status recv abort fuel k s hst hbr hab]
          simp only [if_neg hL0]
          refine ⟨List.chain'_cons.mpr ⟨?_, List.chain'_singleton _⟩, ?_⟩
          · exact div_cast_le_div_cast L _ _ (Nat.le_add_right _ _)
          · intro d
            simp [lastD, advance]
        · have hab' : abort (k + 1) = false := by simpa using hab
          rw [runLoop_succ_cont L c status recv abort fuel k s hst hbr hab']
          simp only [if_neg hL0, List.singleton_append]
          have ihx := ih (k + 1) (advance c L s (recv k))
          constructor
          · refine List.chain'_cons.mpr ⟨?_, ?_⟩
            · exact div_cast_le_div_cast L _ _ (Nat.le_add_right _ _)
            · exact ihx.1
          · intro d
            exact ihx.2 ((s.total : ℚ) / (L : ℚ))
    · rw [runLoop_succ_err L c status recv abort fuel k s hst]
      refine ⟨List.chain'_singleton _, ?_⟩
      intro d
      simp [lastD]

example : (extract_archive false (fun _ => false) (some c1Archive)).result
    = some (ExtractionError.unsafeFilepath "../evil") := by decide

example : (extract_archive false (fun _ => false) (some c1Archive)).bytes = 5 := by decide

example : is_valid_ddlc_dir true true
    (some [DirItem.okItem (some "characters") true,
           DirItem.okItem (some "game") true,
           DirItem.okItem (some "renpy") true,
           DirItem.okItem (some "DDLC.py") false,
           DirItem.okItem (some "DDLC.sh") false]) = true := by decide

example : is_valid_ddlc_dir true true
    (some [DirItem.okItem (some "characters") true,
           DirItem.okItem (some "game") true,
           DirItem.okItem (some "renpy") true,
           DirItem.okItem (some "DDLC.py") false]) = false := by decide

example : is_valid_ddlc_dir true true (some [DirItem.errItem]) = true := by decide

example : (install_game installEnvNoSpr 1).events.getLast? = some Message.Done := by
  decide

example : Message.DownloadingSpr ∉ (install_game installEnvNoSpr 1).events := by
  decide

example : Message.Error ∉ install_game_in_thread installEnvNoSpr 1 := by
  decide

/-- The spritepack tail returns `Ok(())` whenever it exits through an
abort checkpoint. -/
theorem install_spritepacks_aborted_ok (env : InstallEnv) (fuel : ℕ) (ev : List Message) :
    (install_spritepacks env fuel ev).abortedRun = true →
    (install_spritepacks env fuel ev).result = none := by
  simp only [install_spritepacks]
  repeat' split
  all_goals simp

/-- The primary stage returns `Ok(())` whenever it exits through an
abort checkpoint. -/
theorem install_primary_aborted_ok (env : InstallEnv) (fuel : ℕ) (ev : List Message) :
    (install_primary env fuel ev).abortedRun = true →
    (install_primary env fuel ev).result = none := by
  simp only [install_primary]
  repeat' split
  all_goals first
    | exact install_spritepacks_aborted_ok env fuel _
    | simp

/-- `install_game` returning through one of its abort checkpoints always
returns `Ok(())`. -/
theorem install_game_aborted_ok (env : InstallEnv) (fuel : ℕ) :
    (install_game env fuel).abortedRun = true →
    (install_game env fuel).result = none := by
  simp only [install_game]
  repeat' split
  all_goals first
    | exact install_primary_aborted_ok env fuel _
    | simp

/-- The spritepack tail never emits `Message::Error` beyond what is
already in the accumulated trace. -/
theorem install_spritepacks_no_error_event (env : InstallEnv) (fuel : ℕ)
    (ev : List Message) (hev : Message.Error ∉ ev) :
    Message.Error ∉ (install_spritepacks env fuel ev).events := by
  simp only [install_spritepacks]
  repeat' split
  all_goals simp [cleanupEvents, hev]

/-- The primary stage never emits `Message::Error` beyond what is
already in the accumulated trace. -/
theorem install_primary_no_error_event (env : InstallEnv) (fuel : ℕ)
    (ev : List Message) (hev : Message.Error ∉ ev) :
    Message.Error ∉ (install_primary env fuel ev).events := by
  simp only [install_primary]
  repeat' split
  all_goals first
    | (apply install_spritepacks_no_error_event
       simp [hev])
    | simp [cleanupEvents, hev]

/-- `install_game` itself never emits `Message::Error` (only the thread
wrapper does, and only on an `Err` result). -/
theorem install_game_no_error_event (env : InstallEnv) (fuel : ℕ) :
    Message.Error ∉ (install_game env fuel).events := by
  simp only [install_game]
  repeat' split
  all_goals first
    | (apply install_primary_no_error_event
       simp)
    | simp

/-- When `install_game` succeeds, the thread wrapper forwards its events
unchanged (no `Message::Error`). -/
theorem install_game_in_thread_no_error (env : InstallEnv) (fuel : ℕ)
    (h : (install_game env fuel).result = none) :
    install_game_in_thread env fuel = (install_game env fuel).events := by
  simp [install_game_in_thread, h]

/-- C7: if the abort flag is set before a stage begins, that stage
returns success having written zero bytes and issued no request
(download: no GET; extraction: nothing extracted), and a run that
`install_game` ends through an abort checkpoint is `Ok` and is never
reported through the `Message::Error` channel. -/
theorem c7_abort_semantics
    (maxChunk : ℕ) (clen : Option ℕ) (status recv : ℕ → ℕ) (abortD : ℕ → Bool)
    (fuel : ℕ) (exAbortAfter : ℕ → Bool) (archive : Option (List ZipEntry))
    (ienv : InstallEnv) (ifuel : ℕ)
    (hd : abortD 0 = true)
    (hi : (install_game ienv ifuel).abortedRun = true) :
    ((download_to_file_with maxChunk clen status recv abortD fuel).result = DlResult.ok ∧
      (download_to_file_with maxChunk clen status recv abortD fuel).gets = 0 ∧
      (download_to_file_with maxChunk clen status recv abortD fuel).bytes = 0) ∧
    ((extract_archive true exAbortAfter archive).result = none ∧
      (extract_archive true exAbortAfter archive).bytes = 0) ∧
    ((install_game ienv ifuel).result = none ∧
      Message.Error ∉ install_game_in_thread ienv ifuel) := by
  refine ⟨?_, ?_, ?_⟩
  · simp [download_to_file_with, hd]
  · simp [extract_archive]
  · have hok := install_game_aborted_ok ienv ifuel hi
    refine ⟨hok, ?_⟩
    rw [install_game_in_thread_no_error ienv ifuel hok]
    exact install_game_no_error_event ienv ifuel

/-- Witness for C7 at concrete inputs. -/
theorem c7_witness :
    ((download_to_file_with DEF_CHUNK_SIZE (some 5) (fun _ => 200) (fun _ => 1)
        (fun _ => true) 3).result = DlResult.ok ∧
      (download_to_file_with DEF_CHUNK_SIZE (some 5) (fun _ => 200) (fun _ => 1)
        (fun _ => true) 3).gets = 0 ∧
      (download_to_file_with DEF_CHUNK_SIZE (some 5) (fun _ => 200) (fun _ => 1)
        (fun _ => true) 3).bytes = 0) ∧
    ((extract_archive true (fun _ => false) (some c1Archive)).result = none ∧
      (extract_archive true (fun _ => false) (some c1Archive)).bytes = 0) ∧
    ((install_game installEnvAborted 1).result = none ∧
      Message.Error ∉ install_game_in_thread installEnvAborted 1) :=
  c7_abort_semantics DEF_CHUNK_SIZE (some 5) (fun _ => 200) (fun _ => 1)
    (fun _ => true) 3 (fun _ => false) (some c1Archive)
    installEnvAborted 1 rfl (by decide)

/-- C8: a HEAD response without a usable `Content-Length` fails the
download with `DownloadError::InvalidContentLen` before any ranged GET
is issued (and nothing is written). -/
theorem c8_missing_content_length (maxChunk : ℕ) (status recv : ℕ → ℕ)
    (abort : ℕ → Bool) (fuel : ℕ) (h : abort 0 = false) :
    (download_to_file_with maxChunk none status recv abort fuel).result
        = DlResult.invalidContentLen ∧
    (download_to_file_with maxChunk none status recv abort fuel).gets = 0 ∧
    (download_to_file_with maxChunk none status recv abort fuel).bytes = 0 := by
  simp [download_to_file_with, h]

/-- Witness for C8 at concrete inputs. -/
theorem c8_witness :
    (download_to_file_with DEF_CHUNK_SIZE none (fun _ => 200) (fun _ => 1)
        (fun _ => false) 3).result = DlResult.invalidContentLen ∧
    (download_to_file_with DEF_CHUNK_SIZE none (fun _ => 200) (fun _ => 1)
        (fun _ => false) 3).gets = 0 ∧
    (download_to_file_with DEF_CHUNK_SIZE none (fun _ => 200) (fun _ => 1)
        (fun _ => false) 3).bytes = 0 :=
  c8_missing_content_length DEF_CHUNK_SIZE (fun _ => 200) (fun _ => 1)
    (fun _ => false) 3 rfl

/-- C4 (code bug): with a HEAD-reported content length of 0 the code does
NOT complete before talking to the server.  It enters the loop, computes
`up_bound - 1` with `up_bound = 0` — a `u128` underflow (panic in a debug
build; wrap to `2^128 - 1` in release) — and issues one ranged GET with
that wrapped bound before breaking.  No progress fraction is emitted
(the division guard does hold). -/
theorem c4_zero_content_get_underflow :
    (download_to_file_with DEF_CHUNK_SIZE (some 0) (fun _ => 200) (fun _ => 0)
        (fun _ => false) 1).gets = 1 ∧
    (download_to_file_with DEF_CHUNK_SIZE (some 0) (fun _ => 200) (fun _ => 0)
        (fun _ => false) 1).reqs = [(0, U128 - 1)] ∧
    (download_to_file_with DEF_CHUNK_SIZE (some 0) (fun _ => 200) (fun _ => 0)
        (fun _ => false) 1).result = DlResult.ok ∧
    (download_to_file_with DEF_CHUNK_SIZE (some 0) (fun _ => 200) (fun _ => 0)
        (fun _ => false) 1).events = [0] := by
  refine ⟨by decide, by decide, by decide, ?_⟩
  decide

/-- C5: when the server returns fewer bytes than requested, the next
`low_bound` advances by exactly the received count, and the next
`up_bound` is `min (up_bound + received) (contentLength + 1)`. -/
theorem c5_short_read_advance (C L : ℕ) (recv : ℕ → ℕ) (k : ℕ)
    (hshort : recv k < requested (dlIter (min C L) L recv k)) :
    (dlIter (min C L) L recv (k + 1)).low
        = (dlIter (min C L) L recv k).low + recv k ∧
    (dlIter (min C L) L recv (k + 1)).up
        = min ((dlIter (min C L) L recv k).up + recv k) (L + 1) := by
  have hwin := dlIter_up_le_low_add (min C L) L recv k
  have hreq : requested (dlIter (min C L) L recv k) ≤ min C L := by
    simp only [requested]
    omega
  have hrc : recv k ≤ min C L := by omega
  have hmin : min (recv k) (min C L) = recv k := min_eq_left hrc
  constructor
  · simp [dlIter, advance, hmin]
  · simp [dlIter, advance, hmin]

/-- Witness for C5 at concrete inputs. -/
theorem c5_witness :
    (dlIter (min 2 5) 5 (fun _ => 1) (0 + 1)).low
        = (dlIter (min 2 5) 5 (fun _ => 1) 0).low + 1 ∧
    (dlIter (min 2 5) 5 (fun _ => 1) (0 + 1)).up
        = min ((dlIter (min 2 5) 5 (fun _ => 1) 0).up + 1) (5 + 1) :=
  c5_short_read_advance 2 5 (fun _ => 1) 0 (by decide)

/-- C3: at every reached iteration boundary `low_bound ≤ up_bound ≤
contentLength + 1`; `total_downloaded` never decreases; and the loop can
only `break` once `total_downloaded` has reached the content length. -/
theorem c3_loop_invariants (C L : ℕ) (recv : ℕ → ℕ) (k : ℕ)
    (hreach : ∀ j < k, sumRecv recv (j + 1) < L) :
    ((dlIter (min C L) L recv k).low ≤ (dlIter (min C L) L recv k).up ∧
      (dlIter (min C L) L recv k).up ≤ L + 1) ∧
    (∀ m : ℕ, (dlIter (min C L) L recv m).total
        ≤ (dlIter (min C L) L recv (m + 1)).total) ∧
    (∀ (status : ℕ → ℕ) (abort : ℕ → Bool) (fuel k0 : ℕ) (s : DlState),
      (runLoop L (min C L) status recv abort fuel k0 s).exit = ExitKind.broke →
      L ≤ (runLoop L (min C L) status recv abort fuel k0 s).state.total) := by
  refine ⟨?_, ?_, ?_⟩
  · have h := dlIter_inv C L recv k hreach
    exact ⟨h.2.1, h.2.2⟩
  · intro m
    exact Nat.le_add_right _ _
  · intro status abort fuel k0 s
    exact runLoop_broke_total L (min C L) status recv abort fuel k0 s

/-- Witness for C3 at concrete inputs. -/
theorem c3_witness :
    ((dlIter (min 2 5) 5 (fun _ => 1) 1).low ≤ (dlIter (min 2 5) 5 (fun _ => 1) 1).up ∧
      (dlIter (min 2 5) 5 (fun _ => 1) 1).up ≤ 5 + 1) ∧
    (dlIter (min 2 5) 5 (fun _ => 1) 2).total ≤ (dlIter (min 2 5) 5 (fun _ => 1) 3).total ∧
    5 ≤ (runLoop 5 (min 2 5) (fun _ => 200) (fun _ => 1) (fun _ => false) 9 0
        ⟨0, 2, 0⟩).state.total := by
  have h := c3_loop_invariants 2 5 (fun _ => 1) 1 (by decide)
  exact ⟨h.1, h.2.1 2, h.2.2 (fun _ => 200) (fun _ => false) 9 0 ⟨0, 2, 0⟩ (by decide)⟩

/-- `⌈L / min C L⌉ = ⌈L / C⌉` for positive `C`, `L`: capping the chunk at
the content length does not change the chunk count. -/
theorem ceilDiv_min (C L : ℕ) (_hC : 0 < C) (hL : 0 < L) :
    (L + min C L - 1) / min C L = (L + C - 1) / C := by
  rcases le_total C L with h | h
  · rw [min_eq_left h]
  · rw [min_eq_right h]
    have h1 : (L + L - 1) / L = 1 := by
      apply Nat.div_eq_of_lt_le <;> omega
    have h2 : (L + C - 1) / C = 1 := by
      apply Nat.div_eq_of_lt_le <;> omega
    rw [h1, h2]

/-- C2 (amended): with chunk size `c = min C L`, under full receipt the
boundary states are `low = total = k*c`, `up = min ((k+1)*c) (L+1)`; the
requested intervals are consecutive (`low` of each iteration equals `up`
of the previous one, so no gaps and no overlaps); the loop issues exactly
`⌈L/C⌉` GETs and exits by `break`; and the final interval's upper end is
`L` when `c` divides `L` but `L + 1` otherwise — the last request then
asks for one byte past the end of the content, so the intervals tile
`[0, L+1)` rather than `[0, L)`. -/
theorem c2_chunk_bounds (C L fuel : ℕ) (hL : 0 < L) (hC : 0 < C)
    (hfuel : (L + C - 1) / C ≤ fuel) :
    (∀ k, k < (L + min C L - 1) / min C L →
        fullState (min C L) L k
          = ⟨k * min C L, min ((k + 1) * min C L) (L + 1), k * min C L⟩) ∧
    (∀ k, k + 1 < (L + min C L - 1) / min C L →
        (fullState (min C L) L (k + 1)).low = (fullState (min C L) L k).up) ∧
    ((fullState (min C L) L ((L + min C L - 1) / min C L - 1)).up
        = if min C L ∣ L then L else L + 1) ∧
    (runLoop L (min C L) (fun _ => 200) (fullRecv (min C L) L) (fun _ => false)
        fuel 0 ⟨0, min C L, 0⟩).exit = ExitKind.broke ∧
    (runLoop L (min C L) (fun _ => 200) (fullRecv (min C L) L) (fun _ => false)
        fuel 0 ⟨0, min C L, 0⟩).gets = (L + C - 1) / C := by
  have hc : 0 < min C L := lt_min hC hL
  have hcL : min C L ≤ L := min_le_right _ _
  have hceq : (L + min C L - 1) / min C L = (L + C - 1) / C := ceilDiv_min C L hC hL
  have hfuel2 : (L + min C L - 1) / min C L ≤ fuel := by omega
  have hfull := runLoop_full (min C L) L fuel hc hcL hfuel2
  refine ⟨fullState_closed (min C L) L hc hcL, ?_, fullState_last_up (min C L) L hc hcL,
    hfull.1, by rw [hfull.2, hceq]⟩
  intro k hk
  have h1 := fullState_closed (min C L) L hc hcL (k + 1) hk
  have h2 := fullState_closed (min C L) L hc hcL k (by omega)
  have hkc : (k + 1) * min C L < L :=
    (lt_ceilDiv_iff (min C L) L (k + 1) hc (lt_of_lt_of_le hc hcL)).mp hk
  calc (fullState (min C L) L (k + 1)).low = (k + 1) * min C L := by rw [h1]
    _ = min ((k + 1) * min C L) (L + 1) := (min_eq_left (by omega)).symm
    _ = (fullState (min C L) L k).up := by rw [h2]

/-- Counterexample to C2 as stated: with content length 3 and maximum
chunk size 2, under full receipt the second requested interval is
`[2, 4)` — its `Range` header is `bytes=2-3`, asking for byte index 3,
which lies outside `[0, 3)` — so the requested intervals do not
partition `[0, L)`. -/
theorem c2_counterexample :
    ¬ c2CoverageClaim 2 3 ∧
    (runLoop 3 2 (fun _ => 200) (fullRecv 2 3) (fun _ => false) 2 0
      ⟨0, 2, 0⟩).reqs = [(0, 1), (2, 3)] := by
  constructor
  · intro hclaim
    exact absurd (hclaim 1 (by decide)) (by decide)
  · decide

/-- Witness for the amended C2 at concrete inputs. -/
theorem c2_witness :
    fullState (min 2 3) 3 1
        = ⟨1 * min 2 3, min ((1 + 1) * min 2 3) (3 + 1), 1 * min 2 3⟩ ∧
    (runLoop 3 (min 2 3) (fun _ => 200) (fullRecv (min 2 3) 3) (fun _ => false) 2 0
        ⟨0, min 2 3, 0⟩).exit = ExitKind.broke ∧
    (runLoop 3 (min 2 3) (fun _ => 200) (fullRecv (min 2 3) 3) (fun _ => false) 2 0
        ⟨0, min 2 3, 0⟩).gets = (3 + 2 - 1) / 2 := by
  have h := c2_chunk_bounds 2 3 2 (by decide) (by decide) (by decide)
  exact ⟨h.1 1 (by decide), h.2.2.2.1, h.2.2.2.2⟩

/-- C6 (amended: requires `contentLength > 0`): over a successful run the
emitted progress fractions are non-decreasing and the final one equals 1
exactly when the bytes written reached the content length. -/
theorem c6_progress_monotone (maxChunk L : ℕ) (status recv : ℕ → ℕ)
    (abort : ℕ → Bool) (fuel : ℕ) (hL : 0 < L)
    (_hok : (download_to_file_with maxChunk (some L) status recv abort fuel).result
        = DlResult.ok) :
    progressFinalClaim
      (download_to_file_with maxChunk (some L) status recv abort fuel) L := by
  have hL0 : L ≠ 0 := Nat.pos_iff_ne_zero.mp hL
  have hLQ : ((L : ℚ)) ≠ 0 := by positivity
  by_cases hab : abort 0 = true
  · constructor
    · simp [download_to_file_with, hab]
    · have hb : (download_to_file_with maxChunk (some L) status recv abort fuel).bytes
          = 0 := by simp [download_to_file_with, hab]
      have he : (download_to_file_with maxChunk (some L) status recv abort fuel).events
          = [0] := by simp [download_to_file_with, hab]
      rw [hb, he]
      constructor
      · intro h
        have : (0 : ℚ) = 1 := h
        norm_num at this
      · intro h
        omega
  · have hab' : abort 0 = false := by simpa using hab
    have hchain := runLoop_events_chain L (min maxChunk L) status recv abort hL
      fuel 0 ⟨0, min maxChunk L, 0⟩
    have he : (download_to_file_with maxChunk (some L) status recv abort fuel).events
        = 0 :: (runLoop L (min maxChunk L) status recv abort fuel 0
            ⟨0, min maxChunk L, 0⟩).events := by
      simp [download_to_file_with, hab']
    have hb : (download_to_file_with maxChunk (some L) status recv abort fuel).bytes
        = (runLoop L (min maxChunk L) status recv abort fuel 0
            ⟨0, min maxChunk L, 0⟩).state.total := by
      simp [download_to_file_with, hab']
    have hhead : (((⟨0, min maxChunk L, 0⟩ : DlState).total : ℚ) / (L : ℚ)) = 0 := by
      norm_num
    constructor
    · rw [he]
      have h1 := hchain.1
      rw [hhead] at h1
      exact h1
    · rw [he, hb]
      have h2 := hchain.2 0
      rw [hhead] at h2
      rw [show lastD (0 :: (runLoop L (min maxChunk L) status recv abort fuel 0
          ⟨0, min maxChunk L, 0⟩).events) 0
        = ((runLoop L (min maxChunk L) status recv abort fuel 0
            ⟨0, min maxChunk L, 0⟩).state.total : ℚ) / (L : ℚ) from h2]
      rw [div_eq_one_iff_eq hLQ]
      exact_mod_cast Iff.rfl

/-- Counterexample to C6 as stated: a zero-length download that succeeds
has `totalDownloaded = contentLength = 0`, yet its final (and only)
emitted progress value is the initial `0.0`, not `1.0`, so the
"equals 1.0 exactly when" claim fails at `contentLength = 0`. -/
theorem c6_counterexample :
    ¬ progressFinalClaim (download_to_file_with DEF_CHUNK_SIZE (some 0)
        (fun _ => 200) (fun _ => 0) (fun _ => false) 1) 0 := by
  intro h
  have hb : (download_to_file_with DEF_CHUNK_SIZE (some 0)
      (fun _ => 200) (fun _ => 0) (fun _ => false) 1).bytes = 0 := by decide
  have he : (download_to_file_with DEF_CHUNK_SIZE (some 0)
      (fun _ => 200) (fun _ => 0) (fun _ => false) 1).events = [0] := by decide
  have h1 := h.2.mpr hb
  rw [he] at h1
  have h2 : (0 : ℚ) = 1 := h1
  norm_num at h2

/-- Witness for the amended C6 at concrete inputs. -/
theorem c6_witness :
    progressFinalClaim (download_to_file_with 2 (some 1)
      (fun _ => 200) (fun _ => 1) (fun _ => false) 1) 1 :=
  c6_progress_monotone 2 1 (fun _ => 200) (fun _ => 1) (fun _ => false) 1
    (by decide) (by decide)

/-- The entry loop of `_extract_archive` on `pre ++ bad :: post` where
every entry of `pre` passes the `enclosed_name` check and `bad` fails it:
the loop extracts exactly the entries of `pre` (writing their file
bytes), then stops with `UnsafeFilepath` carrying `bad`'s stored name. -/
theorem extractLoop_first_unsafe (total : ℕ) (bad : ZipEntry) (post : List ZipEntry)
    (hbad : isEnclosed bad.comps = false) :
    ∀ (pre : List ZipEntry) (i : ℕ), (∀ e ∈ pre, isEnclosed e.comps = true) →
      (extractLoop (fun _ => false) total i (pre ++ bad :: post)).result
          = some (ExtractionError.unsafeFilepath bad.rawName) ∧
      (extractLoop (fun _ => false) total i (pre ++ bad :: post)).bytes
          = fileBytes pre := by
  intro pre
  induction pre with
  | nil =>
    intro i _
    simp [extractLoop, hbad, fileBytes]
  | cons e pre ih =>
    intro i hpre
    have he : isEnclosed e.comps = true := hpre e (by simp)
    have hr := ih (i + 1) (fun x hx => hpre x (by simp [hx]))
    simp only [List.cons_append, extractLoop, he, if_true]
    simp [hr.1, hr.2, fileBytes]

/-- C1 (amended): when some entry of the archive is rejected by
`enclosed_name`, extraction fails with `UnsafeFilepath` carrying the
FIRST rejected entry's stored name, no entry from that one on is
extracted, and the bytes already written are exactly the file bytes of
the entries preceding it (zero only when the rejected entry comes
first). -/
theorem c1_first_unsafe_aborts (pre post : List ZipEntry) (bad : ZipEntry)
    (hpre : ∀ e ∈ pre, isEnclosed e.comps = true)
    (hbad : isEnclosed bad.comps = false) :
    (extract_archive false (fun _ => false) (some (pre ++ bad :: post))).result
        = some (ExtractionError.unsafeFilepath bad.rawName) ∧
    (extract_archive false (fun _ => false) (some (pre ++ bad :: post))).bytes
        = fileBytes pre := by
  have h := extractLoop_first_unsafe (pre ++ bad :: post).length bad post hbad pre 0 hpre
  have h1 := h.1
  have h2 := h.2
  simp only [List.length_append, List.length_cons] at h1 h2
  constructor
  · simp [extract_archive, h1]
  · simp [extract_archive, h2]

/-- Counterexample to C1 as stated: in `c1Archive` the first entry whose
stored path contains a parent-directory segment is `b/../c.txt`, yet
extraction succeeds on it (interior `..` passes `enclosed_name`), fails
only at `../evil`, and has by then written the 5 bytes of the two
preceding files — so neither the "zero bytes" part nor the "that
entry's name" part of the claim holds. -/
theorem c1_counterexample : ¬ c1ZeroBytesClaim c1Archive := by
  intro h
  have hx := h (by decide)
  revert hx
  decide

/-- Witness for the amended C1 at concrete inputs. -/
theorem c1_witness :
    (extract_archive false (fun _ => false)
        (some ((⟨"a.txt", [FsComp.normal "a.txt"], false, 3⟩ : ZipEntry) ::
          [] ++ (⟨"../evil", [FsComp.parent, FsComp.normal "evil"], false, 1⟩ : ZipEntry)
            :: []))).result
        = some (ExtractionError.unsafeFilepath "../evil") ∧
    (extract_archive false (fun _ => false)
        (some ((⟨"a.txt", [FsComp.normal "a.txt"], false, 3⟩ : ZipEntry) ::
          [] ++ (⟨"../evil", [FsComp.parent, FsComp.normal "evil"], false, 1⟩ : ZipEntry)
            :: []))).bytes
        = fileBytes [⟨"a.txt", [FsComp.normal "a.txt"], false, 3⟩] :=
  c1_first_unsafe_aborts [⟨"a.txt", [FsComp.normal "a.txt"], false, 3⟩] []
    ⟨"../evil", [FsComp.parent, FsComp.normal "evil"], false, 1⟩
    (by decide) (by decide)

/-- C9: a full successful run with `install_spr` off emits no
`DownloadingSpr`/`ExtractingSpr` event, its trace ends with the cleanup
sequence `CleaningUp`, progress `0.0`, progress `1.0`, `Done`, and
`Done` is the last event emitted. -/
theorem c9_no_secondary_events (env : InstallEnv) (fuel : ℕ)
    (h1 : env.abortStart = false) (h2 : env.clientOk = true)
    (h3 : env.releaseOk = true) (h4 : env.tempOk = true)
    (h5 : (runDl env.dl1 fuel).result = DlResult.ok)
    (h6 : env.abortAfterDl1 = false)
    (h7 : (runEx env.ex1).result = none)
    (h8 : env.abortAfterEx1 = false)
    (h9 : env.installSpr = false) :
    Message.DownloadingSpr ∉ (install_game env fuel).events ∧
    Message.ExtractingSpr ∉ (install_game env fuel).events ∧
    (∃ t, (install_game env fuel).events = t ++ cleanupEvents) ∧
    (install_game env fuel).events.getLast? = some Message.Done := by
  have hout : (install_game env fuel).events
      = (([Message.Preparing, Message.UpdateProgressBar 0]
          ++ [Message.UpdateProgressBar (1 / 2)]
          ++ [Message.UpdateProgressBar 1, Message.Downloading]
          ++ (runDl env.dl1 fuel).events.map Message.UpdateProgressBar
          ++ [Message.Extracting]
          ++ (runEx env.ex1).events.map Message.UpdateProgressBar))
          ++ cleanupEvents := by
    simp [install_game, install_primary, h1, h2, h3, h4, h5, h6, h7, h8, h9]
  refine ⟨?_, ?_, ?_, ?_⟩
  · rw [hout]
    simp [cleanupEvents]
  · rw [hout]
    simp [cleanupEvents]
  · exact ⟨_, hout⟩
  · rw [hout]
    rw [show cleanupEvents = [Message.CleaningUp, Message.UpdateProgressBar 0,
        Message.UpdateProgressBar 1] ++ [Message.Done] from rfl]
    rw [← List.append_assoc, List.getLast?_concat]

/-- Witness for C9 at a concrete full successful run. -/
theorem c9_witness :
    Message.DownloadingSpr ∉ (install_game installEnvNoSpr 1).events ∧
    Message.ExtractingSpr ∉ (install_game installEnvNoSpr 1).events ∧
    (∃ t, (install_game installEnvNoSpr 1).events = t ++ cleanupEvents) ∧
    (install_game installEnvNoSpr 1).events.getLast? = some Message.Done :=
  c9_no_secondary_events installEnvNoSpr 1 rfl rfl rfl rfl (by decide) rfl
    (by decide) rfl rfl

/-- Characterisation of the marker loop: started with `flag = 2^j`
(`1 ≤ j ≤ 5`, i.e. `6 - j` markers still needed), it returns `true` iff
an entry read fails or at least `6 - j` entries match a marker.  Note the
code counts matching entries, not distinct markers. -/
theorem ddlcLoop_iff : ∀ (items : List DirItem) (j : ℕ), 1 ≤ j → j ≤ 5 →
    (ddlcLoop items (2 ^ j) = true ↔
      hasErr items = true ∨ 6 - j ≤ matchCount items) := by
  intro items
  induction items with
  | nil =>
    intro j h1 h5
    have hlt : (2 : ℕ) ^ j < 64 := by
      calc (2 : ℕ) ^ j ≤ 2 ^ 5 := Nat.pow_le_pow_right (by norm_num) h5
        _ < 64 := by norm_num
    have hreq : REQUIRED_FLAG = 64 := rfl
    simp only [ddlcLoop, hasErr, matchCount, hreq, beq_iff_eq, Bool.false_eq_true,
      false_or]
    constructor
    · intro h
      omega
    · intro h
      omega
  | cons item rest ih =>
    intro j h1 h5
    cases item with
    | errItem =>
      simp [ddlcLoop, hasErr]
    | okItem o d =>
      cases o with
      | none =>
        simp only [ddlcLoop, hasErr, matchCount]
        rw [ih j h1 h5]
        simp
      | some n =>
        by_cases hm : markerMatch n d = true
        · by_cases hj5 : j = 5
          · subst hj5
            have h64 : ((2 : ℕ) ^ 5 * 2 == REQUIRED_FLAG) = true := by decide
            simp only [ddlcLoop, hm, if_true, h64, hasErr, matchCount]
            constructor
            · intro _
              right
              omega
            · intro _
              trivial
          · have hj4 : j + 1 ≤ 5 := by omega
            have hpow : (2 : ℕ) ^ j * 2 = 2 ^ (j + 1) := by ring
            have hlt : (2 : ℕ) ^ (j + 1) < 64 := by
              calc (2 : ℕ) ^ (j + 1) ≤ 2 ^ 5 := Nat.pow_le_pow_right (by norm_num) hj4
                _ < 64 := by norm_num
            have hne : ((2 : ℕ) ^ (j + 1) == REQUIRED_FLAG) = false := by
              simp [REQUIRED_FLAG]
              omega
            simp only [ddlcLoop, hm, if_true, hpow, hne, Bool.false_eq_true,
              if_false, hasErr, matchCount]
            rw [ih (j + 1) (by omega) hj4]
            constructor
            · rintro (h | h)
              · exact Or.inl h
              · exact Or.inr (by omega)
            · rintro (h | h)
              · exact Or.inl h
              · exact Or.inr (by omega)
        · have hm' : markerMatch n d = false := by simpa using hm
          have hlt : (2 : ℕ) ^ j < 64 := by
            calc (2 : ℕ) ^ j ≤ 2 ^ 5 := Nat.pow_le_pow_right (by norm_num) h5
              _ < 64 := by norm_num
          have hne : ((2 : ℕ) ^ j == REQUIRED_FLAG) = false := by
            simp [REQUIRED_FLAG]
            omega
          simp only [ddlcLoop, hm', Bool.false_eq_true, if_false, hne,
            hasErr, matchCount]
          rw [ih j h1 h5]
          simp

theorem matchNames_length (items : List DirItem) :
    (matchNames items).length = matchCount items := by
  induction items with
  | nil => rfl
  | cons item rest ih =>
    cases item with
    | errItem => simpa [matchNames, matchCount] using ih
    | okItem o d =>
      cases o with
      | none => simpa [matchNames, matchCount] using ih
      | some n =>
        by_cases hm : markerMatch n d = true
        · simp [matchNames, matchCount, hm, ih]
          omega
        · have hm' : markerMatch n d = false := by simpa using hm
          simp [matchNames, matchCount, hm', ih]

theorem matchNames_sublist (items : List DirItem) :
    (matchNames items).Sublist (okNames items) := by
  induction items with
  | nil => simp [matchNames, okNames]
  | cons item rest ih =>
    cases item with
    | errItem => simpa [matchNames, okNames] using ih
    | okItem o d =>
      cases o with
      | none => simpa [matchNames, okNames] using ih
      | some n =>
        by_cases hm : markerMatch n d = true
        · simpa [matchNames, okNames, hm] using ih.cons₂ n
        · have hm' : markerMatch n d = false := by simpa using hm
          simpa [matchNames, okNames, hm'] using ih.cons n

theorem mem_matchNames (items : List DirItem) (n : String) :
    n ∈ matchNames items ↔
      ∃ d, DirItem.okItem (some n) d ∈ items ∧ markerMatch n d = true := by
  induction items with
  | nil => simp [matchNames]
  | cons item rest ih =>
    cases item with
    | errItem =>
      simp only [matchNames]
      rw [ih]
      constructor
      · rintro ⟨d, hd, hmd⟩
        exact ⟨d, by simp [hd], hmd⟩
      · rintro ⟨d, hd, hmd⟩
        rcases List.mem_cons.mp hd with h | h
        · exact absurd h (by simp)
        · exact ⟨d, h, hmd⟩
    | okItem o d0 =>
      cases o with
      | none =>
        simp only [matchNames]
        rw [ih]
        constructor
        · rintro ⟨d, hd, hmd⟩
          exact ⟨d, by simp [hd], hmd⟩
        · rintro ⟨d, hd, hmd⟩
          rcases List.mem_cons.mp hd with h | h
          · exact absurd h (by simp)
          · exact ⟨d, h, hmd⟩
      | some m =>
        by_cases hm : markerMatch m d0 = true
        · simp only [matchNames, hm, if_true, List.mem_cons]
          constructor
          · rintro (rfl | hmem)
            · exact ⟨d0, Or.inl rfl, hm⟩
            · obtain ⟨d, hd, hmd⟩ := ih.mp hmem
              exact ⟨d, Or.inr hd, hmd⟩
          · rintro ⟨d, hd | hd, hmd⟩
            · have hn : n = m := by
                injection hd with hx hy
                injection hx
              exact Or.inl hn
            · exact Or.inr (ih.mpr ⟨d, hd, hmd⟩)
        · have hm' : markerMatch m d0 = false := by simpa using hm
          simp only [matchNames, hm', Bool.false_eq_true, if_false]
          rw [ih]
          constructor
          · rintro ⟨d, hd, hmd⟩
            exact ⟨d, by simp [hd], hmd⟩
          · rintro ⟨d, hd, hmd⟩
            rcases List.mem_cons.mp hd with h | h
            · have hn : n = m ∧ d = d0 := by
                constructor
                · injection h with hx hy
                  injection hx
                · injection h
              obtain ⟨rfl, rfl⟩ := hn
              exact absurd hmd (by simp [hm'])
            · exact ⟨d, h, hmd⟩

theorem mem_fiveList_of_mem_matchNames (items : List DirItem) (n : String)
    (hn : n ∈ matchNames items) :
    n ∈ ["characters", "game", "renpy", "DDLC.py", "DDLC.sh"] := by
  obtain ⟨d, _, hm⟩ := (mem_matchNames items n).mp hn
  cases d
  · simp [markerMatch] at hm
    rcases hm with h | h <;> simp [h]
  · simp [markerMatch] at hm
    rcases hm with (h | h) | h <;> simp [h]

/-- With pairwise distinct entry names (as on a real filesystem), the
loop's count reaching 5 is the same as all five markers being present. -/
theorem matchCount_five_iff (items : List DirItem)
    (hnd : (okNames items).Nodup) :
    5 ≤ matchCount items ↔ allFive items := by
  have hsub := matchNames_sublist items
  have hndm : (matchNames items).Nodup := hnd.sublist hsub
  have hfive : (["characters", "game", "renpy", "DDLC.py", "DDLC.sh"] :
      List String).toFinset.card = 5 := by decide
  constructor
  · intro h5
    have hlen : 5 ≤ (matchNames items).length := by
      rw [matchNames_length]
      exact h5
    have hsubset : (matchNames items).toFinset ⊆
        (["characters", "game", "renpy", "DDLC.py", "DDLC.sh"] :
          List String).toFinset := by
      intro x hx
      rw [List.mem_toFinset] at hx ⊢
      exact mem_fiveList_of_mem_matchNames items x hx
    have hcard : (matchNames items).toFinset.card = (matchNames items).length :=
      List.toFinset_card_of_nodup hndm
    have heq : (matchNames items).toFinset
        = (["characters", "game", "renpy", "DDLC.py", "DDLC.sh"] :
          List String).toFinset :=
      Finset.eq_of_subset_of_card_le hsubset (by omega)
    have hmem : ∀ x ∈ (["characters", "game", "renpy", "DDLC.py", "DDLC.sh"] :
        List String), x ∈ matchNames items := by
      intro x hx
      have hx2 : x ∈ (matchNames items).toFinset := by
        rw [heq, List.mem_toFinset]
        exact hx
      rwa [List.mem_toFinset] at hx2
    have hget : ∀ x ∈ (["characters", "game", "renpy", "DDLC.py", "DDLC.sh"] :
        List String), ∃ d, DirItem.okItem (some x) d ∈ items ∧ markerMatch x d = true :=
      fun x hx => (mem_matchNames items x).mp (hmem x hx)
    refine ⟨?_, ?_, ?_, ?_, ?_⟩
    · obtain ⟨d, hmem', hm⟩ := hget "characters" (by simp)
      cases d
      · simp [markerMatch] at hm
      · exact hmem'
    · obtain ⟨d, hmem', hm⟩ := hget "game" (by simp)
      cases d
      · simp [markerMatch] at hm
      · exact hmem'
    · obtain ⟨d, hmem', hm⟩ := hget "renpy" (by simp)
      cases d
      · simp [markerMatch] at hm
      · exact hmem'
    · obtain ⟨d, hmem', hm⟩ := hget "DDLC.py" (by simp)
      cases d
      · exact hmem'
      · simp [markerMatch] at hm
    · obtain ⟨d, hmem', hm⟩ := hget "DDLC.sh" (by simp)
      cases d
      · exact hmem'
      · simp [markerMatch] at hm
  · rintro ⟨m1, m2, m3, m4, m5⟩
    have k1 : "characters" ∈ matchNames items :=
      (mem_matchNames items _).mpr ⟨true, m1, by decide⟩
    have k2 : "game" ∈ matchNames items :=
      (mem_matchNames items _).mpr ⟨true, m2, by decide⟩
    have k3 : "renpy" ∈ matchNames items :=
      (mem_matchNames items _).mpr ⟨true, m3, by decide⟩
    have k4 : "DDLC.py" ∈ matchNames items :=
      (mem_matchNames items _).mpr ⟨false, m4, by decide⟩
    have k5 : "DDLC.sh" ∈ matchNames items :=
      (mem_matchNames items _).mpr ⟨false, m5, by decide⟩
    have hsubset : (["characters", "game", "renpy", "DDLC.py", "DDLC.sh"] :
        List String).toFinset ⊆ (matchNames items).toFinset := by
      intro x hx
      rw [List.mem_toFinset] at hx ⊢
      simp at hx
      rcases hx with rfl | rfl | rfl | rfl | rfl <;> assumption
    have hc1 : 5 ≤ (matchNames items).toFinset.card := by
      have := Finset.card_le_card hsubset
      omega
    have hc2 : (matchNames items).toFinset.card ≤ (matchNames items).length :=
      List.toFinset_card_le _
    rw [← matchNames_length]
    omega

/-- C10: for a listing with pairwise distinct (UTF-8) entry names,
`is_valid_ddlc_dir` returns `true` iff the path exists and is a
directory, and either the listing could not be read (`read_dir` failure
or a failing entry, both of which make the function return `true`
despite the error) or all five DDLC markers are present. -/
theorem c10_ddlc_dir_check (pathExists pathIsDir : Bool)
    (content : Option (List DirItem))
    (hnd : ∀ items, content = some items → (okNames items).Nodup) :
    is_valid_ddlc_dir pathExists pathIsDir content = true ↔
      (pathExists = true ∧ pathIsDir = true ∧
        (content = none ∨ ∃ items, content = some items ∧
          (hasErr items = true ∨ allFive items))) := by
  cases pathExists
  · simp [is_valid_ddlc_dir]
  · cases pathIsDir
    · simp [is_valid_ddlc_dir]
    · cases content with
      | none => simp [is_valid_ddlc_dir]
      | some items =>
        have hnd' := hnd items rfl
        have hloop := ddlcLoop_iff items 1 (by norm_num) (by norm_num)
        rw [show (2 : ℕ) ^ 1 = 2 from rfl] at hloop
        rw [show (6 : ℕ) - 1 = 5 from rfl] at hloop
        rw [matchCount_five_iff items hnd'] at hloop
        simpa [is_valid_ddlc_dir] using hloop

/-- Witness for C10 at a concrete listing holding all five markers. -/
theorem c10_witness :
    is_valid_ddlc_dir true true
      (some [DirItem.okItem (some "characters") true,
             DirItem.okItem (some "game") true,
             DirItem.okItem (some "renpy") true,
             DirItem.okItem (some "DDLC.py") false,
             DirItem.okItem (some "DDLC.sh") false]) = true := by
  have h := c10_ddlc_dir_check true true
    (some [DirItem.okItem (some "characters") true,
           DirItem.okItem (some "game") true,
           DirItem.okItem (some "renpy") true,
           DirItem.okItem (some "DDLC.py") false,
           DirItem.okItem (some "DDLC.sh") false])
    (by
      intro items hit
      injection hit with hx
      subst hx
      decide)
  refine h.mpr ⟨rfl, rfl, Or.inr ⟨_, rfl, Or.inr ?_⟩⟩
  refine ⟨by simp, by simp, by simp, by simp, by simp⟩
